import Mathlib

/-!
Shallow embedding of the tile-fetching pipeline in `OFM2MBTiles.py`:
the coordinate mapper `tms_y`, the retrying tile fetcher `download_tile`,
the fetch coordinator `fetch_all_tiles`, and the MBTiles archive store
(`create_mbtiles`, tile insertion, commit), together with theorems about
their behaviour.
-/

namespace OFM2MBTiles

/-! ### Constants (module-level constants of OFM2MBTiles.py) -/

def CONCURRENT_REQUESTS : Nat := 10

def RETRY_LIMIT : Nat := 3

def TILE_SIZE : Nat := 512

/-! ### Coordinate mapper -/

/-- `tms_y` from OFM2MBTiles.py: convert an XYZ row index to a TMS row index,
`return (2**z - 1) - y`.  Python integers are unbounded, so the value is an
integer that may be negative outside the documented domain. -/
def tms_y (z : Nat) (y : Int) : Int := ((2 : Int) ^ z - 1) - y

/-! ### Tile fetcher

`download_tile` loops `for attempt in range(1, RETRY_LIMIT + 1)`, issuing one
HTTP GET per attempt.  The server's behaviour on attempt `n` is modelled as a
function from the attempt number to an outcome: a response with a status and a
body, or a transport-level error (a raised exception).  A status-200 response
returns the body immediately; any other outcome prints a message when
`attempt == RETRY_LIMIT` and then sleeps `0.5 * attempt` seconds before the
next iteration (also after the last one).  The trace records the number of
requests issued, the sleeps performed (recorded as the factor `n` of
`0.5 * n` seconds, in order), the failure log lines, and the returned value. -/

/-- One attempt's outcome as seen by `download_tile`: an HTTP response with a
status code and a body, or a transport error (exception). -/
inductive AttemptOutcome where
  | response (status : Nat) (body : List Nat)
  | transportError (msg : String)
deriving DecidableEq, Repr

/-- Whether the outcome is an HTTP 200 response (the only success case). -/
def AttemptOutcome.isSuccess : AttemptOutcome → Bool
  | .response s _ => s == 200
  | .transportError _ => false

/-- The body of a response outcome (junk value on a transport error). -/
def AttemptOutcome.body : AttemptOutcome → List Nat
  | .response _ b => b
  | .transportError _ => []

/-- Observable trace of one `download_tile` call: how many requests were
issued, which backoff sleeps ran (entry `n` is the `0.5 * n`-second sleep, in
order), which permanent failures were printed, and the returned value
(`some (z, x, y, bytes)` or `none`). -/
structure FetchTrace where
  attempts : Nat
  sleeps : List Nat
  logs : List (Nat × Nat × Nat)
  result : Option (Nat × Nat × Nat × List Nat)
deriving DecidableEq, Repr

/-- The retry loop of `download_tile`, from loop variable `attempt` with
`fuel` iterations left (`fuel = RETRY_LIMIT + 1 - attempt` at entry). -/
def download_tile_go (server : Nat → AttemptOutcome) (z x y : Nat) :
    Nat → Nat → FetchTrace
  | 0, _ => ⟨0, [], [], none⟩
  | fuel + 1, attempt =>
    match server attempt with
    | .response s body =>
      if s = 200 then ⟨1, [], [], some (z, x, y, body)⟩
      else
        let rest := download_tile_go server z x y fuel (attempt + 1)
        ⟨rest.attempts + 1, attempt :: rest.sleeps,
          (if attempt = RETRY_LIMIT then [(z, x, y)] else []) ++ rest.logs, rest.result⟩
    | .transportError _ =>
      let rest := download_tile_go server z x y fuel (attempt + 1)
      ⟨rest.attempts + 1, attempt :: rest.sleeps,
        (if attempt = RETRY_LIMIT then [(z, x, y)] else []) ++ rest.logs, rest.result⟩

/-- `download_tile` from OFM2MBTiles.py: up to `RETRY_LIMIT` attempts starting
at attempt number 1. -/
def download_tile (server : Nat → AttemptOutcome) (z x y : Nat) : FetchTrace :=
  download_tile_go server z x y RETRY_LIMIT 1

/-! ### Fetch coordinator (data part)

`fetch_all_tiles` schedules one `sem_download` task per tile of its input
list, consumes the results via `asyncio.as_completed` — i.e. in completion
order, an arbitrary permutation of the submission order — and executes one
`INSERT INTO tiles` per non-`None` result, with the row
`(z, x, tms_y z y, data)`.  The list `order` below is that completion order;
a theorem quantifying over every permutation of the tile list covers every
possible completion order. -/

/-- A web (XYZ) tile address, as produced by `mercantile.tiles`. -/
structure Tile where
  z : Nat
  x : Nat
  y : Nat
deriving DecidableEq, Repr

/-- A row of the `tiles` table:
`(zoom_level, tile_column, tile_row, tile_data)`. -/
structure Row where
  zoom_level : Nat
  tile_column : Nat
  tile_row : Int
  tile_data : List Nat
deriving DecidableEq, Repr

/-- The unique-index key of a `tiles` row:
`(zoom_level, tile_column, tile_row)`. -/
def tileKey (r : Row) : Nat × Nat × Int := (r.zoom_level, r.tile_column, r.tile_row)

/-- One outcome per scheduled tile, in completion order `order`: the tile
address paired with the value its `download_tile` call returned. -/
def fetch_outcomes (server : Tile → Nat → AttemptOutcome) (order : List Tile) :
    List (Tile × Option (Nat × Nat × Nat × List Nat)) :=
  order.map fun t => (t, (download_tile (server t) t.z t.x t.y).result)

/-- The rows the coordinator loop inserts, in completion order: `None`
results are skipped, a result `(z, x, y, data)` becomes the row
`(z, x, tms_y z y, data)`. -/
def fetch_rows (server : Tile → Nat → AttemptOutcome) (order : List Tile) :
    List Row :=
  (fetch_outcomes server order).filterMap fun p =>
    p.2.map fun r => ⟨r.1, r.2.1, tms_y r.1 (r.2.2.1 : Int), r.2.2.2⟩

/-- All failure lines printed during the run (one per tile whose retries were
exhausted). -/
def fetch_logs (server : Tile → Nat → AttemptOutcome) (order : List Tile) :
    List (Nat × Nat × Nat) :=
  (order.map fun t => (download_tile (server t) t.z t.x t.y).logs).flatten

/-! ### Archive store

The SQLite archive is modelled relationally: which schema objects exist plus
the contents of the two tables.  A connection separates the committed on-disk
state from the in-memory state of the open transaction; `conn.commit()`
publishes the latter.  `INSERT INTO tiles` under the unique index
`tile_index (zoom_level, tile_column, tile_row)` raises an integrity error on
a duplicate key, leaving the database unchanged. -/

/-- The state of one MBTiles SQLite database. -/
structure DBState where
  hasMetadataTable : Bool
  hasTilesTable : Bool
  hasTileIndex : Bool
  metadata : List (String × String)
  tiles : List Row
deriving DecidableEq, Repr

/-- A freshly created (empty) database file. -/
def emptyDB : DBState := ⟨false, false, false, [], []⟩

/-- An open SQLite connection: the committed on-disk state and the current
in-memory state of the open transaction. -/
structure Conn where
  disk : DBState
  mem : DBState
deriving DecidableEq, Repr

/-- `conn.commit()`: publish the in-memory state to disk. -/
def Conn.commit (c : Conn) : Conn := ⟨c.mem, c.mem⟩

/-- The eight metadata rows `create_mbtiles` inserts, in insertion order.
The bounding box entries arrive as the decimal strings Python renders the
four floats to; zoom levels are integers rendered with `str`. -/
def metadata_rows (bbox : Fin 4 → String) (min_zoom max_zoom : Int) :
    List (String × String) :=
  [("name", "Custom Area Tiles"),
   ("format", "png"),
   ("type", "baselayer"),
   ("version", "1.0"),
   ("bounds", bbox 0 ++ "," ++ bbox 1 ++ "," ++ bbox 2 ++ "," ++ bbox 3),
   ("minzoom", toString min_zoom),
   ("maxzoom", toString max_zoom),
   ("tile_size", toString TILE_SIZE)]

/-- `create_mbtiles` from OFM2MBTiles.py, applied to the database state `db`
found at the target path (`emptyDB` for a fresh file): `CREATE TABLE IF NOT
EXISTS metadata`, `CREATE TABLE IF NOT EXISTS tiles`, `CREATE UNIQUE INDEX IF
NOT EXISTS tile_index`, eight `INSERT INTO metadata` statements, then
`conn.commit()`; the connection is returned open. -/
def create_mbtiles (db : DBState) (bbox : Fin 4 → String)
    (min_zoom max_zoom : Int) : Conn :=
  let m : DBState :=
    { hasMetadataTable := true
      hasTilesTable := true
      hasTileIndex := true
      metadata := db.metadata ++ metadata_rows bbox min_zoom max_zoom
      tiles := db.tiles }
  Conn.commit ⟨db, m⟩

/-- `INSERT INTO tiles (zoom_level, tile_column, tile_row, tile_data)` on the
in-memory state: with the unique index present, a row whose key collides with
an existing row raises `sqlite3.IntegrityError` (UNIQUE constraint failed)
and changes nothing; otherwise the row is appended. -/
def insertTile (db : DBState) (r : Row) : Except String DBState :=
  if db.hasTileIndex && db.tiles.any fun q => tileKey q == tileKey r then
    .error "UNIQUE constraint failed: tiles.zoom_level, tiles.tile_column, tiles.tile_row"
  else
    .ok { db with tiles := db.tiles ++ [r] }

/-- The coordinator inserting each completed row in turn; an integrity error
propagates (the script has no handler for it) and aborts the run. -/
def insert_rows (db : DBState) : List Row → Except String DBState
  | [] => .ok db
  | r :: rs =>
    match insertTile db r with
    | .error e => .error e
    | .ok db2 => insert_rows db2 rs

/-- `fetch_all_tiles` from OFM2MBTiles.py, for completion order `order` on a
fresh output file: create the archive (which commits the metadata), insert
one row per successful fetch as results complete, then `conn.commit()` and
`conn.close()`. -/
def fetch_all_tiles_db (server : Tile → Nat → AttemptOutcome) (order : List Tile)
    (bbox : Fin 4 → String) (min_zoom max_zoom : Int) : Except String Conn :=
  let conn := create_mbtiles emptyDB bbox min_zoom max_zoom
  match insert_rows conn.mem (fetch_rows server order) with
  | .error e => .error e
  | .ok m => .ok (Conn.commit ⟨conn.disk, m⟩)

/-- A run of `fetch_all_tiles` aborted after the first `k` completed results
were processed and before the final `conn.commit()`: the connection as it
stands at that instant. -/
def run_aborted (server : Tile → Nat → AttemptOutcome) (order : List Tile)
    (bbox : Fin 4 → String) (min_zoom max_zoom : Int) (k : Nat) :
    Except String Conn :=
  let conn := create_mbtiles emptyDB bbox min_zoom max_zoom
  match insert_rows conn.mem ((fetch_rows server order).take k) with
  | .error e => .error e
  | .ok m => .ok ⟨conn.disk, m⟩

/-! ### Fetch coordinator (concurrency gate)

`fetch_all_tiles` wraps every `download_tile` call in
`async with semaphore` for
`semaphore = asyncio.Semaphore(CONCURRENT_REQUESTS)`.  The scheduling is
modelled as an interleaving transition system: each task is waiting
(created, blocked on the gate), running (inside the `async with`, fetch in
flight) or done; acquiring the gate requires a positive counter and
decrements it, finishing releases it. -/

/-- The scheduling state of one `sem_download` task. -/
inductive TaskState where
  | waiting
  | running
  | done
deriving DecidableEq, Repr

/-- Coordinator scheduling state: the semaphore counter and the per-task
states. -/
structure SchedState where
  sem : Nat
  tasks : List TaskState
deriving DecidableEq, Repr

/-- Start of the run: counter at the concurrency limit, every task created
and waiting on the gate. -/
def initState (limit n : Nat) : SchedState :=
  ⟨limit, List.replicate n .waiting⟩

/-- One scheduler transition: a waiting task acquires the gate (only when a
slot is free), or a running task finishes and releases its slot. -/
inductive SchedStep : SchedState → SchedState → Prop where
  | acquire (s : SchedState) (i : Nat)
      (hw : s.tasks[i]? = some .waiting) (hs : 0 < s.sem) :
      SchedStep s ⟨s.sem - 1, s.tasks.set i .running⟩
  | release (s : SchedState) (i : Nat)
      (hr : s.tasks[i]? = some .running) :
      SchedStep s ⟨s.sem + 1, s.tasks.set i .done⟩

/-- The gate invariant: free slots plus fetches in flight equal the limit. -/
def GateInv (limit : Nat) (s : SchedState) : Prop :=
  s.sem + s.tasks.count .running = limit

/-! ## Theorems -/

/-- C3: for every zoom `z ≥ 0` and every XYZ row `0 ≤ y < 2^z`,
`tms_y z y` equals `(2^z - 1) - y`, and the function is total on this domain
with no error path: the result is again a valid row index `0 ≤ tms_y z y < 2^z`. -/
theorem tms_y_formula (z : Nat) (y : Int) (h0 : 0 ≤ y) (h1 : y < (2 : Int) ^ z) :
    tms_y z y = ((2 : Int) ^ z - 1) - y ∧ 0 ≤ tms_y z y ∧ tms_y z y < (2 : Int) ^ z := by
  refine ⟨rfl, ?_, ?_⟩ <;> simp only [tms_y] <;> omega

theorem tms_y_formula_witness :
    (0 : Int) ≤ 5 ∧ (5 : Int) < (2 : Int) ^ 3 ∧
      (tms_y 3 5 = ((2 : Int) ^ 3 - 1) - 5 ∧ 0 ≤ tms_y 3 5 ∧ tms_y 3 5 < (2 : Int) ^ 3) :=
  ⟨by decide, by decide, tms_y_formula 3 5 (by decide) (by decide)⟩

/-- C4: at every fixed zoom `z`, `tms_y z` is an involution on the row range
`0 ≤ y < 2^z`, and the endpoints map to each other. -/
theorem tms_y_involution (z : Nat) (y : Int) (h0 : 0 ≤ y) (h1 : y < (2 : Int) ^ z) :
    tms_y z (tms_y z y) = y ∧ tms_y z 0 = (2 : Int) ^ z - 1 ∧ tms_y z ((2 : Int) ^ z - 1) = 0 := by
  refine ⟨?_, ?_, ?_⟩ <;> simp only [tms_y] <;> omega

theorem tms_y_involution_witness :
    (0 : Int) ≤ 2 ∧ (2 : Int) < (2 : Int) ^ 4 ∧
      (tms_y 4 (tms_y 4 2) = 2 ∧ tms_y 4 0 = (2 : Int) ^ 4 - 1 ∧
        tms_y 4 ((2 : Int) ^ 4 - 1) = 0) :=
  ⟨by decide, by decide, tms_y_involution 4 2 (by decide) (by decide)⟩

/-- If no attempt in the window `[attempt, attempt + fuel)` succeeds, the loop
runs all its iterations: one request and one backoff sleep per attempt, a log
line exactly when the window reaches attempt `RETRY_LIMIT`, and no result. -/
theorem download_tile_go_no_success (server : Nat → AttemptOutcome) (z x y : Nat)
    (fuel attempt : Nat)
    (hfail : ∀ j, attempt ≤ j → j < attempt + fuel → (server j).isSuccess = false) :
    download_tile_go server z x y fuel attempt =
      ⟨fuel, List.range' attempt fuel,
        if attempt ≤ RETRY_LIMIT ∧ RETRY_LIMIT < attempt + fuel then [(z, x, y)] else [],
        none⟩ := by
  induction fuel generalizing attempt with
  | zero =>
    simp only [download_tile_go, List.range']
    have : ¬(attempt ≤ RETRY_LIMIT ∧ RETRY_LIMIT < attempt + 0) := by omega
    rw [if_neg this]
  | succ n ih =>
    have hcur : (server attempt).isSuccess = false := hfail attempt le_rfl (by omega)
    have hrest := ih (attempt + 1) (fun j hj hj2 => hfail j (by omega) (by omega))
    have hlog :
        ((if attempt = RETRY_LIMIT then [(z, x, y)] else []) ++
          (if attempt + 1 ≤ RETRY_LIMIT ∧ RETRY_LIMIT < attempt + 1 + n then [(z, x, y)]
            else [])) =
          (if attempt ≤ RETRY_LIMIT ∧ RETRY_LIMIT < attempt + (n + 1) then [(z, x, y)]
            else [] : List (Nat × Nat × Nat)) := by
      by_cases h3 : attempt = RETRY_LIMIT
      · subst h3
        rw [if_pos rfl, if_neg (by omega), if_pos (by omega)]
        simp
      · rw [if_neg h3]
        by_cases h4 : attempt + 1 ≤ RETRY_LIMIT ∧ RETRY_LIMIT < attempt + 1 + n
        · rw [if_pos h4, if_pos (by omega)]
          simp
        · rw [if_neg h4, if_neg (by omega)]
          simp
    match hserver : server attempt with
    | .response s b =>
      have hs : s ≠ 200 := by
        intro h
        subst h
        rw [hserver] at hcur
        simp [AttemptOutcome.isSuccess] at hcur
      simp only [download_tile_go, hserver, if_neg hs, hrest, List.range']
      rw [hlog]
    | .transportError m =>
      simp only [download_tile_go, hserver, hrest, List.range']
      rw [hlog]

/-- If the first successful attempt in the window `[attempt, attempt + fuel)`
is attempt `k`, the loop makes attempts `attempt, ..., k`, sleeps after each
failed one, and returns the body of attempt `k` immediately. -/
theorem download_tile_go_first_success (server : Nat → AttemptOutcome) (z x y : Nat)
    (fuel attempt k : Nat) (hak : attempt ≤ k) (hkf : k < attempt + fuel)
    (hfail : ∀ j, attempt ≤ j → j < k → (server j).isSuccess = false)
    (hsucc : (server k).isSuccess = true) :
    download_tile_go server z x y fuel attempt =
      ⟨k + 1 - attempt, List.range' attempt (k - attempt),
        if attempt ≤ RETRY_LIMIT ∧ RETRY_LIMIT < k then [(z, x, y)] else [],
        some (z, x, y, (server k).body)⟩ := by
  induction fuel generalizing attempt with
  | zero => omega
  | succ n ih =>
    by_cases hk : k = attempt
    · subst hk
      match hserver : server k with
      | .response s b =>
        have hs : s = 200 := by
          rw [hserver] at hsucc
          simpa [AttemptOutcome.isSuccess] using hsucc

        simp only [download_tile_go, hserver, if_pos hs, AttemptOutcome.body]
        have h1 : k + 1 - k = 1 := by omega
        have h2 : k - k = 0 := by omega
        have h3 : ¬(k ≤ RETRY_LIMIT ∧ RETRY_LIMIT < k) := by omega
        rw [h1, h2, if_neg h3]
        rfl
      | .transportError m =>
        rw [hserver] at hsucc
        simp [AttemptOutcome.isSuccess] at hsucc
    · have hak2 : attempt + 1 ≤ k := by omega
      have hcur : (server attempt).isSuccess = false := hfail attempt le_rfl (by omega)
      have hrest := ih (attempt + 1) hak2 (by omega)
        (fun j hj hj2 => hfail j (by omega) hj2)
      have harith : k + 1 - (attempt + 1) + 1 = k + 1 - attempt := by omega
      have hrange : attempt :: List.range' (attempt + 1) (k - (attempt + 1)) =
          List.range' attempt (k - attempt) := by
        have : k - attempt = (k - (attempt + 1)) + 1 := by omega
        rw [this, List.range']
      have hlog :
          ((if attempt = RETRY_LIMIT then [(z, x, y)] else []) ++
            (if attempt + 1 ≤ RETRY_LIMIT ∧ RETRY_LIMIT < k then [(z, x, y)] else [])) =
            (if attempt ≤ RETRY_LIMIT ∧ RETRY_LIMIT < k then [(z, x, y)]
              else [] : List (Nat × Nat × Nat)) := by
        by_cases h3 : attempt = RETRY_LIMIT
        · subst h3
          rw [if_pos rfl, if_neg (by omega), if_pos (by omega)]
          simp
        · rw [if_neg h3]
          by_cases h4 : attempt + 1 ≤ RETRY_LIMIT ∧ RETRY_LIMIT < k
          · rw [if_pos h4, if_pos (by omega)]
            simp
          · rw [if_neg h4, if_neg (by omega)]
            simp
      match hserver : server attempt with
      | .response s b =>
        have hs : s ≠ 200 := by
          intro h
          subst h
          rw [hserver] at hcur
          simp [AttemptOutcome.isSuccess] at hcur
        simp only [download_tile_go, hserver, if_neg hs, hrest]
        rw [harith, hrange, hlog]
      | .transportError m =>
        simp only [download_tile_go, hserver, hrest]
        rw [harith, hrange, hlog]

/-- Four-way case analysis on a `download_tile` run: either some attempt
`k ≤ RETRY_LIMIT` is the first success, or every attempt fails. -/
theorem download_tile_cases (server : Nat → AttemptOutcome) (z x y : Nat) :
    (∃ k, 1 ≤ k ∧ k ≤ RETRY_LIMIT ∧
      (∀ j, 1 ≤ j → j < k → (server j).isSuccess = false) ∧
      (server k).isSuccess = true ∧
      download_tile server z x y =
        ⟨k, List.range' 1 (k - 1), [], some (z, x, y, (server k).body)⟩)
    ∨ ((∀ j, 1 ≤ j → j ≤ RETRY_LIMIT → (server j).isSuccess = false) ∧
      download_tile server z x y =
        ⟨RETRY_LIMIT, List.range' 1 RETRY_LIMIT, [(z, x, y)], none⟩) := by
  by_cases h1 : (server 1).isSuccess = true
  · refine Or.inl ⟨1, le_rfl, by decide, by omega, h1, ?_⟩
    rw [download_tile, download_tile_go_first_success server z x y RETRY_LIMIT 1 1
      le_rfl (by decide) (by omega) h1]
    rfl
  · rw [Bool.not_eq_true] at h1
    by_cases h2 : (server 2).isSuccess = true
    · have hfail : ∀ j, 1 ≤ j → j < 2 → (server j).isSuccess = false := by
        intro j hj hj2
        interval_cases j
        exact h1
      refine Or.inl ⟨2, by decide, by decide, hfail, h2, ?_⟩
      rw [download_tile, download_tile_go_first_success server z x y RETRY_LIMIT 1 2
        (by decide) (by decide) hfail h2]
      rfl
    · rw [Bool.not_eq_true] at h2
      by_cases h3 : (server 3).isSuccess = true
      · have hfail : ∀ j, 1 ≤ j → j < 3 → (server j).isSuccess = false := by
          intro j hj hj2
          interval_cases j
          · exact h1
          · exact h2
        refine Or.inl ⟨3, by decide, by decide, hfail, h3, ?_⟩
        rw [download_tile, download_tile_go_first_success server z x y RETRY_LIMIT 1 3
          (by decide) (by decide) hfail h3]
        rfl
      · rw [Bool.not_eq_true] at h3
        have hfail : ∀ j, 1 ≤ j → j ≤ RETRY_LIMIT → (server j).isSuccess = false := by
          intro j hj hj2
          have : j ≤ 3 := hj2
          interval_cases j
          · exact h1
          · exact h2
          · exact h3
        refine Or.inr ⟨hfail, ?_⟩
        rw [download_tile, download_tile_go_no_success server z x y RETRY_LIMIT 1
          (fun j hj hj2 => hfail j hj (by omega))]
        rfl

/-- C2: `download_tile` returns a body as a success exactly when some attempt
among the first `RETRY_LIMIT` receives an HTTP 200 response; a first success
at attempt `k` returns that response body after exactly `k` requests
(short-circuit, no further attempts), and a server answering HTTP 500 on
every attempt causes exactly `RETRY_LIMIT` requests followed by a `none`
result (permanent failure, no bytes). -/
theorem download_tile_spec (server : Nat → AttemptOutcome) (z x y : Nat) :
    ((download_tile server z x y).result.isSome = true ↔
      ∃ k, 1 ≤ k ∧ k ≤ RETRY_LIMIT ∧ (server k).isSuccess = true)
    ∧ (∀ k body, 1 ≤ k → k ≤ RETRY_LIMIT → server k = .response 200 body →
        (∀ j, 1 ≤ j → j < k → (server j).isSuccess = false) →
        (download_tile server z x y).result = some (z, x, y, body) ∧
          (download_tile server z x y).attempts = k)
    ∧ ((∀ k, 1 ≤ k → k ≤ RETRY_LIMIT → ∃ body, server k = .response 500 body) →
        (download_tile server z x y).attempts = RETRY_LIMIT ∧
          (download_tile server z x y).result = none) := by
  refine ⟨⟨?_, ?_⟩, ?_, ?_⟩
  · intro hsome
    rcases download_tile_cases server z x y with ⟨k, hk1, hk2, _, hk, _⟩ | ⟨_, heq⟩
    · exact ⟨k, hk1, hk2, hk⟩
    · rw [heq] at hsome
      simp at hsome
  · rintro ⟨k, hk1, hk2, hk⟩
    rcases download_tile_cases server z x y with ⟨m, _, _, _, _, heq⟩ | ⟨hfail, _⟩
    · rw [heq]
      rfl
    · exact absurd hk (by rw [hfail k hk1 hk2]; decide)
  · intro k body hk1 hk2 hserver hbelow
    have hsucc : (server k).isSuccess = true := by
      rw [hserver]
      rfl
    rcases download_tile_cases server z x y with ⟨m, hm1, hm2, hmbelow, hm, heq⟩ |
        ⟨hfail, _⟩
    · have hmk : m = k := by
        rcases Nat.lt_trichotomy m k with h | h | h
        · exact absurd hm (by rw [hbelow m hm1 h]; decide)
        · exact h
        · exact absurd hsucc (by rw [hmbelow k hk1 h]; decide)
      subst hmk
      rw [heq, hserver]
      exact ⟨rfl, rfl⟩
    · exact absurd hsucc (by rw [hfail k hk1 hk2]; decide)
  · intro h500
    have hfail : ∀ j, 1 ≤ j → j < 1 + RETRY_LIMIT → (server j).isSuccess = false := by
      intro j hj hj2
      obtain ⟨body, hb⟩ := h500 j hj (by omega)
      rw [hb]
      rfl
    rw [download_tile, download_tile_go_no_success server z x y RETRY_LIMIT 1 hfail]
    exact ⟨rfl, rfl⟩

/-- C2 witness at a concrete server that answers HTTP 500 forever. -/
theorem download_tile_spec_witness :
    (download_tile (fun _ => .response 500 []) 7 3 5).attempts = RETRY_LIMIT ∧
      (download_tile (fun _ => .response 500 []) 7 3 5).result = none :=
  (download_tile_spec (fun _ => .response 500 []) 7 3 5).2.2
    (fun k _ _ => ⟨[], rfl⟩)

/-- C7: in every `download_tile` run, the backoff sleeps are exactly one
`0.5 * n`-second sleep after each failed attempt `n`, in order — in
particular, when the run ends in permanent failure the final attempt
`RETRY_LIMIT` is still followed by its sleep — and a successful attempt
returns without sleeping (the success attempt contributes no sleep). -/
theorem download_tile_sleeps (server : Nat → AttemptOutcome) (z x y : Nat) :
    (download_tile server z x y).sleeps =
      List.range' 1
        (if (download_tile server z x y).result.isSome = true then
          (download_tile server z x y).attempts - 1
        else (download_tile server z x y).attempts) ∧
    ((download_tile server z x y).result = none →
      (download_tile server z x y).sleeps = List.range' 1 RETRY_LIMIT) := by
  rcases download_tile_cases server z x y with ⟨k, _, _, _, _, heq⟩ | ⟨_, heq⟩
  · rw [heq]
    exact ⟨rfl, fun h => absurd h (by simp)⟩
  · rw [heq]
    exact ⟨rfl, fun _ => rfl⟩

/-- C7 witness at a concrete server that always raises a transport error. -/
theorem download_tile_sleeps_witness :
    (download_tile (fun _ => .transportError "timeout") 2 1 0).sleeps =
      List.range' 1
        (if (download_tile (fun _ => .transportError "timeout") 2 1 0).result.isSome
            = true then
          (download_tile (fun _ => .transportError "timeout") 2 1 0).attempts - 1
        else (download_tile (fun _ => .transportError "timeout") 2 1 0).attempts) ∧
      (download_tile (fun _ => .transportError "timeout") 2 1 0).sleeps =
        List.range' 1 RETRY_LIMIT :=
  ⟨(download_tile_sleeps (fun _ => .transportError "timeout") 2 1 0).1,
    (download_tile_sleeps (fun _ => .transportError "timeout") 2 1 0).2 rfl⟩

/-! ### Concurrency gate theorems -/

/-- Replacing the element at a valid index trades the old element's count
contribution for the new one's. -/
theorem count_set_balance (l : List TaskState) (i : Nat) (a b tgt : TaskState)
    (h : l[i]? = some a) :
    (l.set i b).count tgt + (if a = tgt then 1 else 0) =
      l.count tgt + (if b = tgt then 1 else 0) := by
  induction l generalizing i with
  | nil => simp at h
  | cons hd tl ih =>
    cases i with
    | zero =>
      rw [List.getElem?_cons_zero, Option.some.injEq] at h
      subst h
      simp only [List.set, List.count_cons]
      by_cases h1 : hd = tgt <;> by_cases h2 : b = tgt <;>
        simp [h1, h2] <;> omega
    | succ n =>
      rw [List.getElem?_cons_succ] at h
      have hb := ih n h
      simp only [List.set, List.count_cons]
      omega

/-- Every scheduler transition preserves the gate invariant. -/
theorem schedStep_preserves_inv (limit : Nat) (s t : SchedState)
    (hstep : SchedStep s t) (hinv : GateInv limit s) : GateInv limit t := by
  cases hstep with
  | acquire i hw hs =>
    have hb := count_set_balance s.tasks i .waiting .running .running hw
    simp only [reduceIte, reduceCtorEq, if_neg, if_pos] at hb
    unfold GateInv at hinv ⊢
    simp only at hb ⊢
    omega
  | release i hr =>
    have hb := count_set_balance s.tasks i .running .done .running hr
    simp only [reduceIte, reduceCtorEq, if_neg, if_pos] at hb
    unfold GateInv at hinv ⊢
    simp only at hb ⊢
    omega

/-- C6: for every task count `n` and concurrency cap `limit < n`, in every
state the coordinator's run can reach, at most `limit` fetches are in flight
simultaneously; and any transition that moves a waiting task into the running
state requires a free slot (`0 < sem`) at that instant. -/
theorem fetch_concurrency_bound (limit n : Nat) (hln : limit < n)
    (s : SchedState)
    (hreach : Relation.ReflTransGen SchedStep (initState limit n) s) :
    s.tasks.count .running ≤ limit ∧
      ∀ (t : SchedState) (i : Nat), SchedStep s t →
        s.tasks[i]? = some TaskState.waiting →
        t.tasks[i]? = some TaskState.running → 0 < s.sem := by
  have hinv : GateInv limit s := by
    induction hreach with
    | refl => simp [GateInv, initState, List.count_replicate]
    | tail hab hbc ih => exact schedStep_preserves_inv limit _ _ hbc ih
  constructor
  · unfold GateInv at hinv
    omega
  · intro t i hstep hw hr
    cases hstep with
    | acquire j hwj hsj => exact hsj
    | release j hrj =>
      by_cases hij : j = i
      · subst hij
        have hlen : j < s.tasks.length := by
          by_contra hge
          rw [List.getElem?_eq_none (by omega)] at hrj
          exact Option.noConfusion hrj
        rw [List.getElem?_set_self hlen] at hr
        exact absurd (Option.some.inj hr) (by simp)
      · rw [List.getElem?_set_ne hij] at hr
        rw [hw] at hr
        exact absurd (Option.some.inj hr) (by simp)

/-- C6 witness: the initial state of a run with cap 1 and 2 tiles. -/
theorem fetch_concurrency_bound_witness :
    (initState 1 2).tasks.count .running ≤ 1 ∧
      ∀ (t : SchedState) (i : Nat), SchedStep (initState 1 2) t →
        (initState 1 2).tasks[i]? = some TaskState.waiting →
        t.tasks[i]? = some TaskState.running → 0 < (initState 1 2).sem :=
  fetch_concurrency_bound 1 2 (by decide) (initState 1 2)
    Relation.ReflTransGen.refl

/-! ### Archive store theorems -/

/-- C5: after `create_mbtiles` (which ensures the unique index exists),
inserting any second row that shares the key `(zoom_level, tile_column,
tile_row)` of an already inserted row — whatever its `tile_data` — raises
the store's UNIQUE-constraint violation while the first inserted row is
retained; and the rejection is store-level, not an application-level check:
on a database without the unique index the same second insert is accepted. -/
theorem insert_duplicate_violates (db : DBState) (bbox : Fin 4 → String)
    (min_zoom max_zoom : Int) (r r2 : Row) (m2 : DBState)
    (hkey : tileKey r2 = tileKey r)
    (h : insertTile (create_mbtiles db bbox min_zoom max_zoom).mem r = .ok m2) :
    insertTile m2 r2 =
      .error "UNIQUE constraint failed: tiles.zoom_level, tiles.tile_column, tiles.tile_row"
    ∧ m2.tiles = (create_mbtiles db bbox min_zoom max_zoom).mem.tiles ++ [r]
    ∧ ∀ db3 : DBState, db3.hasTileIndex = false →
        insertTile db3 r2 = .ok { db3 with tiles := db3.tiles ++ [r2] } := by
  rw [insertTile] at h
  split at h
  · exact Except.noConfusion h
  · have hm2 : m2 =
        { (create_mbtiles db bbox min_zoom max_zoom).mem with
          tiles := (create_mbtiles db bbox min_zoom max_zoom).mem.tiles ++ [r] } :=
      (Except.ok.inj h).symm
    refine ⟨?_, by rw [hm2], fun db3 h3 => by rw [insertTile, h3]; simp⟩
    have hc : (m2.hasTileIndex && m2.tiles.any fun q => tileKey q == tileKey r2)
        = true := by
      rw [hm2]
      simp [create_mbtiles, Conn.commit, List.any_append, hkey]
    rw [insertTile, if_pos hc]

/-- C5 witness: a second row with the same key but different bytes, after
one successful insert into a fresh archive. -/
theorem insert_duplicate_violates_witness :
    insertTile
      ⟨true, true, true, metadata_rows (fun _ => "0.0") 1 2, [⟨5, 6, 7, [1, 2]⟩]⟩
      ⟨5, 6, 7, [9]⟩ =
      .error "UNIQUE constraint failed: tiles.zoom_level, tiles.tile_column, tiles.tile_row" :=
  (insert_duplicate_violates emptyDB (fun _ => "0.0") 1 2 ⟨5, 6, 7, [1, 2]⟩
    ⟨5, 6, 7, [9]⟩
    ⟨true, true, true, metadata_rows (fun _ => "0.0") 1 2, [⟨5, 6, 7, [1, 2]⟩]⟩
    rfl rfl).1

/-- C8: `create_mbtiles` against any pre-existing database state is
idempotent on schema — metadata table, tiles table and unique index are
present afterwards whether or not they already were, and pre-existing tiles
rows are untouched — while the eight metadata rows for the current run are
always written (appended after whatever metadata rows already existed), and
the result is committed. -/
theorem create_mbtiles_spec (db : DBState) (bbox : Fin 4 → String)
    (min_zoom max_zoom : Int) :
    (create_mbtiles db bbox min_zoom max_zoom).mem.hasMetadataTable = true
    ∧ (create_mbtiles db bbox min_zoom max_zoom).mem.hasTilesTable = true
    ∧ (create_mbtiles db bbox min_zoom max_zoom).mem.hasTileIndex = true
    ∧ (create_mbtiles db bbox min_zoom max_zoom).mem.tiles = db.tiles
    ∧ (create_mbtiles db bbox min_zoom max_zoom).mem.metadata =
        db.metadata ++
          [("name", "Custom Area Tiles"), ("format", "png"),
           ("type", "baselayer"), ("version", "1.0"),
           ("bounds", bbox 0 ++ "," ++ bbox 1 ++ "," ++ bbox 2 ++ "," ++ bbox 3),
           ("minzoom", toString min_zoom), ("maxzoom", toString max_zoom),
           ("tile_size", toString TILE_SIZE)]
    ∧ (create_mbtiles db bbox min_zoom max_zoom).disk =
        (create_mbtiles db bbox min_zoom max_zoom).mem :=
  ⟨rfl, rfl, rfl, rfl, rfl, rfl⟩

/-- C9: running the pipeline on an empty tile set succeeds — the final
commit goes through with zero tiles inserted — and the resulting archive has
an empty tiles table and exactly the eight metadata pairs, with bounds the
comma-separated bbox string and minzoom/maxzoom the decimal renderings of
the zoom bounds. -/
theorem empty_tile_set_archive (server : Tile → Nat → AttemptOutcome)
    (bbox : Fin 4 → String) (min_zoom max_zoom : Int) :
    fetch_all_tiles_db server [] bbox min_zoom max_zoom =
      .ok ⟨⟨true, true, true,
            [("name", "Custom Area Tiles"), ("format", "png"),
             ("type", "baselayer"), ("version", "1.0"),
             ("bounds", bbox 0 ++ "," ++ bbox 1 ++ "," ++ bbox 2 ++ "," ++ bbox 3),
             ("minzoom", toString min_zoom), ("maxzoom", toString max_zoom),
             ("tile_size", toString TILE_SIZE)], []⟩,
           ⟨true, true, true,
            [("name", "Custom Area Tiles"), ("format", "png"),
             ("type", "baselayer"), ("version", "1.0"),
             ("bounds", bbox 0 ++ "," ++ bbox 1 ++ "," ++ bbox 2 ++ "," ++ bbox 3),
             ("minzoom", toString min_zoom), ("maxzoom", toString max_zoom),
             ("tile_size", toString TILE_SIZE)], []⟩⟩ := rfl

/-- A successful `insert_rows` run appends exactly its rows and changes
nothing else. -/
theorem insert_rows_ok_state (rows : List Row) (db m : DBState)
    (h : insert_rows db rows = .ok m) :
    m = ⟨db.hasMetadataTable, db.hasTilesTable, db.hasTileIndex,
          db.metadata, db.tiles ++ rows⟩ := by
  induction rows generalizing db with
  | nil =>
    cases db
    simpa [insert_rows] using (Except.ok.inj h).symm
  | cons r rs ih =>
    rw [insert_rows] at h
    cases hins : insertTile db r with
    | error e =>
      rw [hins] at h
      exact Except.noConfusion h
    | ok db2 =>
      rw [hins] at h
      rw [insertTile] at hins
      split at hins
      · exact Except.noConfusion hins
      · have hdb2 := Except.ok.inj hins
        rw [ih db2 h, ← hdb2]
        simp

/-- C10: the metadata rows are committed by `create_mbtiles`, and the tile
rows only by the final commit after every tile has been processed: a run
aborted after any number `k` of processed results leaves on disk exactly the
schema plus the current run's metadata and no tile rows, while a completed
run's disk state carries every inserted row at once. -/
theorem tiles_committed_by_final_commit (server : Tile → Nat → AttemptOutcome)
    (order : List Tile) (bbox : Fin 4 → String) (min_zoom max_zoom : Int)
    (k : Nat) :
    (∀ c : Conn, run_aborted server order bbox min_zoom max_zoom k = .ok c →
      c.disk = ⟨true, true, true, metadata_rows bbox min_zoom max_zoom, []⟩)
    ∧ (∀ c : Conn, fetch_all_tiles_db server order bbox min_zoom max_zoom = .ok c →
        c.disk = ⟨true, true, true, metadata_rows bbox min_zoom max_zoom,
          fetch_rows server order⟩ ∧ c.mem = c.disk) := by
  constructor
  · intro c h
    rw [run_aborted] at h
    split at h
    · exact Except.noConfusion h
    · rw [← Except.ok.inj h]
      rfl
  · intro c h
    rw [fetch_all_tiles_db] at h
    split at h
    · exact Except.noConfusion h
    · rename_i m hm
      have := insert_rows_ok_state _ _ _ hm
      rw [← Except.ok.inj h, Conn.commit, this]
      exact ⟨rfl, rfl⟩

/-- C10 witness: a run on one tile aborted before processing any result. -/
theorem tiles_committed_by_final_commit_witness :
    (⟨⟨true, true, true, metadata_rows (fun _ => "1.5") 7 7, []⟩,
      ⟨true, true, true, metadata_rows (fun _ => "1.5") 7 7, []⟩⟩ : Conn).disk =
      ⟨true, true, true, metadata_rows (fun _ => "1.5") 7 7, []⟩ :=
  (tiles_committed_by_final_commit (fun _ _ => .response 200 [9]) [⟨0, 0, 0⟩]
    (fun _ => "1.5") 7 7 0).1 _ rfl

/-! ### Fetch coordinator theorems -/

/-- A permanently failed `download_tile` call prints exactly one failure
line, carrying its tile coordinates. -/
theorem download_tile_logs_of_none (server : Nat → AttemptOutcome) (z x y : Nat)
    (h : (download_tile server z x y).result = none) :
    (download_tile server z x y).logs = [(z, x, y)] := by
  rcases download_tile_cases server z x y with ⟨k, _, _, _, _, heq⟩ | ⟨_, heq⟩
  · rw [heq] at h
    exact Option.noConfusion h
  · rw [heq]

/-- A successful `download_tile` call returns its own coordinates. -/
theorem download_tile_result_coords (server : Nat → AttemptOutcome) (z x y : Nat)
    (r : Nat × Nat × Nat × List Nat)
    (h : (download_tile server z x y).result = some r) :
    ∃ body, r = (z, x, y, body) := by
  rcases download_tile_cases server z x y with ⟨k, _, _, _, _, heq⟩ | ⟨_, heq⟩
  · rw [heq] at h
    exact ⟨(server k).body, (Option.some.inj h).symm⟩
  · rw [heq] at h
    exact Option.noConfusion h

/-- `fetch_rows` as a single `filterMap` over the completion order. -/
theorem fetch_rows_eq_filterMap (server : Tile → Nat → AttemptOutcome)
    (order : List Tile) :
    fetch_rows server order = order.filterMap fun t =>
      ((download_tile (server t) t.z t.x t.y).result).map fun r =>
        Row.mk r.1 r.2.1 (tms_y r.1 (r.2.2.1 : Int)) r.2.2.2 := by
  rw [fetch_rows, fetch_outcomes, List.filterMap_map]
  rfl

/-- With distinct tile addresses, the inserted rows have pairwise distinct
unique-index keys. -/
theorem fetch_rows_keys_nodup (server : Tile → Nat → AttemptOutcome)
    (order : List Tile) (h : order.Nodup) :
    ((fetch_rows server order).map tileKey).Nodup := by
  rw [fetch_rows_eq_filterMap, List.map_filterMap]
  refine List.Nodup.filterMap ?_ h
  intro a a2 b hba hba2
  rw [Option.mem_def, Option.map_map, Option.map_eq_some'] at hba hba2
  obtain ⟨r, hr, hb⟩ := hba
  obtain ⟨r2, hr2, hb2⟩ := hba2
  obtain ⟨body, rfl⟩ := download_tile_result_coords _ _ _ _ _ hr
  obtain ⟨body2, rfl⟩ := download_tile_result_coords _ _ _ _ _ hr2
  rw [← hb2] at hb
  simp only [Function.comp, tileKey, Prod.mk.injEq] at hb
  obtain ⟨hz, hx, hy⟩ := hb
  have hyy : (a.y : Int) = (a2.y : Int) := by
    rw [tms_y, tms_y, hz] at hy
    omega
  cases a
  cases a2
  simp only [Tile.mk.injEq]
  simp only at hz hx hyy
  exact ⟨hz, hx, by exact_mod_cast hyy⟩

/-- When the keys of the pending rows collide neither with each other nor
with the rows already in the table, every insert succeeds and the rows are
appended in order. -/
theorem insert_rows_ok_of_nodup (rows : List Row) (db : DBState)
    (h : ((db.tiles ++ rows).map tileKey).Nodup) :
    insert_rows db rows =
      .ok ⟨db.hasMetadataTable, db.hasTilesTable, db.hasTileIndex,
        db.metadata, db.tiles ++ rows⟩ := by
  induction rows generalizing db with
  | nil =>
    cases db
    simp [insert_rows]
  | cons r rs ih =>
    have hnotin : ∀ q ∈ db.tiles, tileKey q ≠ tileKey r := by
      intro q hq hkey
      rw [List.map_append, List.nodup_append] at h
      exact h.2.2 (List.mem_map_of_mem tileKey hq)
        (by rw [hkey]; exact List.mem_map_of_mem tileKey (List.mem_cons_self r rs))
    have hany : (db.tiles.any fun q => tileKey q == tileKey r) = false := by
      rw [List.any_eq_false]
      intro q hq
      simpa using hnotin q hq
    rw [insert_rows, insertTile, if_neg (by rw [hany]; simp)]
    have hrec := ih { db with tiles := db.tiles ++ [r] }
      (by simpa [List.append_assoc] using h)
    exact hrec.trans (by simp)

/-- C1: for every finite list of distinct tile addresses and every
completion order (any permutation of it), the run produces exactly one
outcome per address, each address appearing exactly once; every permanent
failure is logged and contributes no row; every success contributes exactly
one row `(zoom, x, (2^zoom - 1) - y, bytes)`; and the run completes with
precisely those rows in the archive's tiles table. -/
theorem fetch_all_tiles_outcomes (server : Tile → Nat → AttemptOutcome)
    (tiles order : List Tile) (bbox : Fin 4 → String) (min_zoom max_zoom : Int)
    (hperm : order.Perm tiles) (hnd : tiles.Nodup) :
    ((fetch_outcomes server order).map Prod.fst).Perm tiles
    ∧ (∀ t ∈ tiles, ((fetch_outcomes server order).map Prod.fst).count t = 1)
    ∧ (∀ t ∈ order, (download_tile (server t) t.z t.x t.y).result = none →
        (t.z, t.x, t.y) ∈ fetch_logs server order)
    ∧ fetch_rows server order =
        (fetch_outcomes server order).filterMap (fun p =>
          p.2.map fun r =>
            Row.mk r.1 r.2.1 (((2 : Int) ^ r.1 - 1) - (r.2.2.1 : Int)) r.2.2.2)
    ∧ ∃ c, fetch_all_tiles_db server order bbox min_zoom max_zoom = .ok c ∧
        c.disk.tiles = fetch_rows server order := by
  have hmap : (fetch_outcomes server order).map Prod.fst = order := by
    simp [fetch_outcomes, List.map_map, Function.comp_def]
  refine ⟨?_, ?_, ?_, ?_, ?_⟩
  · rw [hmap]
    exact hperm
  · intro t ht
    rw [hmap, hperm.count_eq]
    exact List.count_eq_one_of_mem hnd ht
  · intro t ht hnone
    refine List.mem_flatten.mpr ⟨(download_tile (server t) t.z t.x t.y).logs,
      List.mem_map_of_mem _ ht, ?_⟩
    rw [download_tile_logs_of_none _ _ _ _ hnone]
    exact List.mem_singleton_self _
  · rfl
  · have hordnd : order.Nodup := hperm.nodup_iff.mpr hnd
    have hkeys := fetch_rows_keys_nodup server order hordnd
    have hins := insert_rows_ok_of_nodup (fetch_rows server order)
      (create_mbtiles emptyDB bbox min_zoom max_zoom).mem
      (by simpa [create_mbtiles, Conn.commit, emptyDB] using hkeys)
    refine ⟨Conn.commit ⟨(create_mbtiles emptyDB bbox min_zoom max_zoom).disk,
      ⟨true, true, true, metadata_rows bbox min_zoom max_zoom,
        fetch_rows server order⟩⟩, ?_, rfl⟩
    rw [fetch_all_tiles_db]
    simp only [hins]
    rfl

/-- C1 witness: one tile, a permanently failing server. -/
theorem fetch_all_tiles_outcomes_witness :
    ((fetch_outcomes (fun _ _ => .response 500 []) [⟨1, 0, 0⟩]).map Prod.fst).Perm
        [⟨1, 0, 0⟩]
    ∧ (∀ t ∈ [(⟨1, 0, 0⟩ : Tile)],
        ((fetch_outcomes (fun _ _ => .response 500 []) [⟨1, 0, 0⟩]).map
          Prod.fst).count t = 1)
    ∧ (∀ t ∈ [(⟨1, 0, 0⟩ : Tile)],
        (download_tile ((fun (_ : Tile) (_ : Nat) =>
          (.response 500 [] : AttemptOutcome)) t) t.z t.x t.y).result = none →
        (t.z, t.x, t.y) ∈ fetch_logs (fun _ _ => .response 500 []) [⟨1, 0, 0⟩])
    ∧ fetch_rows (fun _ _ => .response 500 []) [⟨1, 0, 0⟩] =
        (fetch_outcomes (fun _ _ => .response 500 []) [⟨1, 0, 0⟩]).filterMap
          (fun p => p.2.map fun r =>
            Row.mk r.1 r.2.1 (((2 : Int) ^ r.1 - 1) - (r.2.2.1 : Int)) r.2.2.2)
    ∧ ∃ c, fetch_all_tiles_db (fun _ _ => .response 500 []) [⟨1, 0, 0⟩]
          (fun _ => "2.0") 1 1 = .ok c ∧
        c.disk.tiles = fetch_rows (fun _ _ => .response 500 []) [⟨1, 0, 0⟩] :=
  fetch_all_tiles_outcomes (fun _ _ => .response 500 []) [⟨1, 0, 0⟩] [⟨1, 0, 0⟩]
    (fun _ => "2.0") 1 1 (List.Perm.refl _) (by simp)

end OFM2MBTiles
